import Mathlib

/-!
Verification of the MiniPNG lossy-minification core (src/minify.rs,
src/dithering.rs, src/median.rs) against its natural-language specification.

Modelling conventions:
* `u8` channel values are modelled as `ℕ` (with explicit `≤ 255` bounds where
  a statement depends on them), `i16`/`i32` working values as `ℤ`.
* Rust integer division on non-negative values is `ℕ` division; Rust signed
  division (which truncates toward zero) is `Int.tdiv`.
* `f64`/`f32` values are modelled as exact rationals `ℚ`.  All floating
  computations in the analyzed code are sums, products and divisions of small
  integers, so the rational model tracks the float computation except for
  rounding at the last bits, which none of the verified claims depend on.
* A decoded RGBA image is a width/height pair together with a total pixel
  function; the code only ever reads in-bounds pixels (except through the
  modelled arithmetic bug in `calculate_detail_frequency`, see below).
* Rust `u32` subtraction inside range bounds is modelled by `checkedSub`,
  which returns `none` on underflow exactly where a debug build panics
  ("attempt to subtract with overflow"); in a release build the wrapped
  value leads to an out-of-bounds `get_pixel` panic instead.
-/

/-- An RGBA pixel: four 8-bit channels modelled as naturals. -/
structure Rgba where
  r : ℕ
  g : ℕ
  b : ℕ
  a : ℕ
deriving DecidableEq, Repr

/-- A decoded RGBA image: dimensions plus a (total) pixel lookup.
`pix x y` is the pixel at column `x`, row `y`. -/
structure Img where
  width : ℕ
  height : ℕ
  pix : ℕ → ℕ → Rgba

/-- Rust `v.clamp(0, 255)` on a signed integer. -/
def iclamp (v : ℤ) : ℤ := max 0 (min v 255)

/-- `quantize_channel` from src/minify.rs (lines 703-709): clamp to `[0,255]`,
round to the nearest multiple of `factor` by integer arithmetic, clamp again.
All intermediate values are non-negative, so the final
`quantized.clamp(0, 255)` is `min quantized 255`. -/
def quantize_channel (value : ℤ) (factor : ℕ) : ℕ :=
  let clamped := (iclamp value).toNat
  let quantized := ((clamped + factor / 2) / factor) * factor
  min quantized 255

/-- The ascending list `[a, a+1, ..., b-1]` (a Rust `a..b` range over `u32`,
with the bounds already computed). -/
def rangeList (a b : ℕ) : List ℕ := (List.range (b - a)).map (a + ·)

/-- A Rust `(a..b).step_by(s)` iterator: every `s`-th element of `a..b`. -/
def stepRange (a b s : ℕ) : List ℕ :=
  ((List.range (b - a)).filter (fun i => i % s = 0)).map (a + ·)

/-- Rust `u32` subtraction: `none` on underflow (a debug-build panic; in a
release build the wrapped huge value makes the subsequent pixel loop read out
of bounds, which also panics). -/
def checkedSub (a b : ℕ) : Option ℕ := if b ≤ a then some (a - b) else none

/- ------------------------------------------------------------------ -/
/- C1: the channel quantizer.                                          -/
/- ------------------------------------------------------------------ -/

/-- **C1 (counterexample).** The claim "`quantize_channel(value, step)`
returns a value that is a multiple of `step` (or 0)" fails at
`value = 255`, `step = 32`: the rounded value `256` is clamped to `255`,
which is neither a multiple of `32` nor `0`. -/
theorem c1_quantize_counterexample :
    quantize_channel 255 32 = 255 ∧ ¬ (32 ∣ quantize_channel 255 32) ∧
      quantize_channel 255 32 ≠ 0 := by
  decide

/-- **C1 (amended).** For every input value and every step size in
{32, 16, 12, 8}, `quantize_channel value step` lies in `[0,255]` and is
either a multiple of `step` or exactly `255` (the final clamp can turn the
rounded multiple `256` into `255`). -/
theorem c1_quantize_channel_range_and_multiple (value : ℤ) (factor : ℕ)
    (hf : factor = 32 ∨ factor = 16 ∨ factor = 12 ∨ factor = 8) :
    quantize_channel value factor ≤ 255 ∧
      (factor ∣ quantize_channel value factor ∨
        quantize_channel value factor = 255) := by
  clear hf
  unfold quantize_channel
  refine ⟨min_le_right _ _, ?_⟩
  rcases le_or_lt (((iclamp value).toNat + factor / 2) / factor * factor) 255 with h | h
  · exact Or.inl (by rw [min_eq_left h]; exact dvd_mul_left _ _)
  · exact Or.inr (min_eq_right h.le)

/-- Witness for C1 (amended) at `value = 37`, `step = 32`. -/
theorem c1_quantize_channel_witness :
    quantize_channel 37 32 ≤ 255 ∧
      (32 ∣ quantize_channel 37 32 ∨ quantize_channel 37 32 = 255) :=
  c1_quantize_channel_range_and_multiple 37 32 (Or.inl rfl)

/- ------------------------------------------------------------------ -/
/- src/dithering.rs: image analysis and mode selection.                -/
/- ------------------------------------------------------------------ -/

/-- `DitheringMode` from src/minify.rs, together with the `MedianCut` variant
that src/dithering.rs returns (the enum variant referenced by
`select_optimal_mode`). -/
inductive DitheringMode where
  | None
  | FloydSteinberg
  | Ordered
  | Auto
  | MedianCut
deriving DecidableEq, Repr

/-- `ImageAnalysis` from src/dithering.rs: the five image metrics.
`f64` fields are modelled as `ℚ`. -/
structure ImageAnalysis where
  gradient_smoothness : ℚ
  edge_density : ℚ
  color_diversity : ℕ
  local_variance : ℚ
  detail_frequency : ℚ
deriving DecidableEq, Repr

/-- `calculate_gradient_smoothness`: mean L1 difference between horizontally
adjacent pixels on the sparse every-4th grid. -/
def calculate_gradient_smoothness (img : Img) : ℚ :=
  let st := (stepRange 0 img.height 4).foldl (fun st y =>
    (stepRange 0 img.width 4).foldl (fun (st : ℚ × ℕ) x =>
      if x + 1 < img.width then
        let p1 := img.pix x y
        let p2 := img.pix (x + 1) y
        let diff : ℚ :=
          (((p2.r : ℤ) - p1.r).natAbs + ((p2.g : ℤ) - p1.g).natAbs +
            ((p2.b : ℤ) - p1.b).natAbs : ℕ)
        (st.1 + diff, st.2 + 1)
      else st) st) ((0 : ℚ), (0 : ℕ))
  if st.2 > 0 then st.1 / st.2 else 0

/-- The luma approximation `0.299*R + 0.587*G + 0.114*B` used by the Sobel
gradient and by the block-variance metric. -/
def get_brightness (img : Img) (x y : ℕ) : ℚ :=
  let p := img.pix x y
  (p.r : ℚ) * (299 / 1000) + (p.g : ℚ) * (587 / 1000) + (p.b : ℚ) * (114 / 1000)

/-- `calculate_pixel_gradient`, kept as the *squared* Sobel magnitude
`gx² + gy²`.  The source takes `(gx*gx + gy*gy).sqrt()` and compares the
result against `30.0`; the square root of a rational is irrational in
general, so the embedding carries the square and the caller compares
against `30² = 900`, which is equivalent for non-negative values. -/
def calculate_pixel_gradient_sq (img : Img) (x y : ℕ) : ℚ :=
  let gb := get_brightness img
  let gx := -gb (x-1) (y-1) - 2 * gb (x-1) y - gb (x-1) (y+1) +
    gb (x+1) (y-1) + 2 * gb (x+1) y + gb (x+1) (y+1)
  let gy := -gb (x-1) (y-1) - 2 * gb x (y-1) - gb (x+1) (y-1) +
    gb (x-1) (y+1) + 2 * gb x (y+1) + gb (x+1) (y+1)
  gx * gx + gy * gy

/-- `calculate_edge_density`: fraction of sparsely sampled interior pixels
whose Sobel gradient exceeds 30 (here: squared gradient exceeds 900).
The `height-1` / `width-1` range bounds are `u32` subtractions, modelled by
`checkedSub` (the width bound is evaluated once per row, as in the source). -/
def calculate_edge_density (img : Img) : Option ℚ := do
  let yEnd ← checkedSub img.height 1
  let st ← (stepRange 1 yEnd 4).foldlM (fun (st : ℕ × ℕ) y => do
    let xEnd ← checkedSub img.width 1
    pure ((stepRange 1 xEnd 4).foldl (fun (st : ℕ × ℕ) x =>
      let st' := if calculate_pixel_gradient_sq img x y > 900 then
        (st.1 + 1, st.2) else st
      (st'.1, st'.2 + 1)) st)) ((0 : ℕ), (0 : ℕ))
  pure (if st.2 > 0 then (st.1 : ℚ) / st.2 else 0)

/-- `calculate_color_diversity`: number of distinct colors after bucketing
each channel into 16 levels, over every pixel.  The `HashSet` is modelled as
a duplicate-free list; its cardinality does not depend on insertion order. -/
def calculate_color_diversity (img : Img) : ℕ :=
  ((List.range img.height).foldl (fun acc y =>
    (List.range img.width).foldl (fun (acc : List (ℕ × ℕ × ℕ)) x =>
      let p := img.pix x y
      let bucketed := (p.r / 16, p.g / 16, p.b / 16)
      if bucketed ∈ acc then acc else bucketed :: acc) acc) []).length

/-- `calculate_block_variance`: luma variance of one (clipped) block. -/
def calculate_block_variance (img : Img) (start_x start_y bw bh : ℕ) : ℚ :=
  let end_x := min (start_x + bw) img.width
  let end_y := min (start_y + bh) img.height
  let values := (rangeList start_y end_y).flatMap (fun y =>
    (rangeList start_x end_x).map (fun x => get_brightness img x y))
  if values.isEmpty then 0
  else
    let mean := values.sum / values.length
    (values.map (fun v => (v - mean) ^ 2)).sum / values.length

/-- `calculate_local_variance`: the median of the per-8×8-block variances. -/
def calculate_local_variance (img : Img) : ℚ :=
  let variances := (stepRange 0 img.height 8).flatMap (fun by_ =>
    (stepRange 0 img.width 8).map (fun bx =>
      calculate_block_variance img bx by_ 8 8))
  if variances.isEmpty then 0
  else
    let sorted := variances.insertionSort (· ≤ ·)
    sorted.getD (variances.length / 2) 0

/-- `calculate_detail_frequency`: fraction of sparsely sampled interior
pixels where at least 2 of the 4 axis neighbors differ from the center by an
L1 distance above 20.  The `height-2` / `width-2` range bounds are `u32`
subtractions modelled by `checkedSub`; `width-2` is evaluated once per row,
exactly as the source range expression is. -/
def calculate_detail_frequency (img : Img) : Option ℚ := do
  let yEnd ← checkedSub img.height 2
  let st ← (stepRange 2 yEnd 4).foldlM (fun (st : ℕ × ℕ) y => do
    let xEnd ← checkedSub img.width 2
    pure ((stepRange 2 xEnd 4).foldl (fun (st : ℕ × ℕ) x =>
      let center := img.pix x y
      let neighbors := [img.pix (x-1) y, img.pix (x+1) y,
        img.pix x (y-1), img.pix x (y+1)]
      let changes := neighbors.foldl (fun (c : ℕ) n =>
        let diff := ((center.r : ℤ) - n.r).natAbs +
          ((center.g : ℤ) - n.g).natAbs + ((center.b : ℤ) - n.b).natAbs
        if diff > 20 then c + 1 else c) 0
      let st' := if changes ≥ 2 then (st.1 + 1, st.2) else st
      (st'.1, st'.2 + 1)) st)) ((0 : ℕ), (0 : ℕ))
  pure (if st.2 > 0 then (st.1 : ℚ) / st.2 else 0)

/-- `analyze_image`: all-zero metrics for a degenerate image, otherwise the
five metrics.  `none` models a panic inside a metric function (the
`u32` underflow in `calculate_detail_frequency` for width/height 1). -/
def analyze_image (img : Img) : Option ImageAnalysis :=
  if img.width = 0 ∨ img.height = 0 then
    some ⟨0, 0, 0, 0, 0⟩
  else do
    let gradient_smoothness := calculate_gradient_smoothness img
    let edge_density ← calculate_edge_density img
    let color_diversity := calculate_color_diversity img
    let local_variance := calculate_local_variance img
    let detail_frequency ← calculate_detail_frequency img
    pure ⟨gradient_smoothness, edge_density, color_diversity,
      local_variance, detail_frequency⟩

/-- `select_optimal_mode` from src/dithering.rs (lines 281-334), with the
threshold constants inlined as exact rationals (`0.15 = 3/20`,
`0.35 = 7/20`, `0.25 = 1/4`, `0.4 = 2/5`, `0.3 = 3/10`). -/
def select_optimal_mode (analysis : ImageAnalysis) : DitheringMode :=
  if analysis.gradient_smoothness < 5 ∧ analysis.edge_density < 3/20 ∧
      analysis.local_variance < 200 then
    DitheringMode.None
  else if analysis.color_diversity < 100 ∧ analysis.edge_density < 3/20 then
    DitheringMode.None
  else if analysis.color_diversity > 300 ∧ analysis.color_diversity < 500 ∧
      analysis.edge_density > 3/20 ∧ analysis.edge_density < 7/20 ∧
      analysis.detail_frequency < 1/4 then
    DitheringMode.MedianCut
  else if analysis.detail_frequency > 1/4 ∧ analysis.edge_density > 7/20 ∧
      analysis.color_diversity > 300 then
    DitheringMode.FloydSteinberg
  else if analysis.edge_density > 2/5 ∧ analysis.local_variance > 600 ∧
      analysis.color_diversity > 500 then
    DitheringMode.FloydSteinberg
  else if analysis.gradient_smoothness < 10 ∧ analysis.edge_density < 3/10 then
    DitheringMode.Ordered
  else
    DitheringMode.Ordered

/-- `recommend_dithering_mode`: analyze, then select.  `none` propagates a
panic from the analyzer. -/
def recommend_dithering_mode (img : Img) : Option DitheringMode :=
  (analyze_image img).map select_optimal_mode

/- ------------------------------------------------------------------ -/
/- C2, C8, C10: mode selection and analyzer totality.                  -/
/- ------------------------------------------------------------------ -/

/-- **C2 (counterexample).** Metrics with `color_diversity = 200` are not
matched by either "None" rule, satisfy `100 < color_diversity < 500`,
`0.15 < edge_density < 0.35` and `detail_frequency < 0.25`, yet the selector
returns `Ordered`, not `MedianCut`: the code requires
`color_diversity > 300` (the `MODERATE_COLOR_DIVERSITY` constant), not
`> 100`. -/
theorem c2_mode_selector_counterexample :
    select_optimal_mode ⟨100, 1/5, 200, 0, 1/10⟩ = DitheringMode.Ordered ∧
      ¬ ((100 : ℚ) < 5 ∧ (1/5 : ℚ) < 3/20 ∧ (0 : ℚ) < 200) ∧
      ¬ (200 < 100 ∧ (1/5 : ℚ) < 3/20) ∧
      (100 < 200 ∧ 200 < 500) ∧
      ((3/20 : ℚ) < 1/5 ∧ (1/5 : ℚ) < 7/20) ∧
      (1/10 : ℚ) < 1/4 ∧
      DitheringMode.Ordered ≠ DitheringMode.MedianCut := by
  refine ⟨?_, by norm_num, by norm_num, by norm_num, by norm_num,
    by norm_num, by decide⟩
  norm_num [select_optimal_mode]

/-- **C2 (amended).** For every metrics tuple not matched by the two "None"
rules, if `300 < color_diversity < 500` and `0.15 < edge_density < 0.35`
and `detail_frequency < 0.25`, the Mode Selector returns `MedianCut`. -/
theorem c2_mode_selector_median_cut (a : ImageAnalysis)
    (h1 : ¬ (a.gradient_smoothness < 5 ∧ a.edge_density < 3/20 ∧
      a.local_variance < 200))
    (h2 : ¬ (a.color_diversity < 100 ∧ a.edge_density < 3/20))
    (hcd1 : 300 < a.color_diversity) (hcd2 : a.color_diversity < 500)
    (hed1 : 3/20 < a.edge_density) (hed2 : a.edge_density < 7/20)
    (hdf : a.detail_frequency < 1/4) :
    select_optimal_mode a = DitheringMode.MedianCut := by
  unfold select_optimal_mode
  rw [if_neg h1, if_neg h2, if_pos ⟨hcd1, hcd2, hed1, hed2, hdf⟩]

/-- Witness for C2 (amended) at
`(gradient, edge, diversity, variance, detail) = (100, 1/5, 400, 0, 1/10)`. -/
theorem c2_mode_selector_median_cut_witness :
    select_optimal_mode ⟨100, 1/5, 400, 0, 1/10⟩ = DitheringMode.MedianCut :=
  c2_mode_selector_median_cut ⟨100, 1/5, 400, 0, 1/10⟩ (by norm_num)
    (by norm_num) (by norm_num) (by norm_num) (by norm_num) (by norm_num)
    (by norm_num)

/-- **C8.** For every image with zero width or zero height the analyzer
returns all-zero metrics (without failing), and the Mode Selector applied to
the all-zero metrics returns `None` (the first "None" rule fires). -/
theorem c8_degenerate_analysis (img : Img)
    (h : img.width = 0 ∨ img.height = 0) :
    analyze_image img = some ⟨0, 0, 0, 0, 0⟩ ∧
      select_optimal_mode ⟨0, 0, 0, 0, 0⟩ = DitheringMode.None := by
  constructor
  · unfold analyze_image
    rw [if_pos h]
  · norm_num [select_optimal_mode]

/-- Witness for C8 at a 0×3 image. -/
theorem c8_degenerate_analysis_witness :
    analyze_image ⟨0, 3, fun _ _ => ⟨0, 0, 0, 0⟩⟩ = some ⟨0, 0, 0, 0, 0⟩ ∧
      select_optimal_mode ⟨0, 0, 0, 0, 0⟩ = DitheringMode.None :=
  c8_degenerate_analysis ⟨0, 3, fun _ _ => ⟨0, 0, 0, 0⟩⟩ (Or.inl rfl)

/-- **C10 (code bug).** Image analysis is *not* total on images with
nonzero dimensions: on a 1×5 all-black image, `calculate_detail_frequency`
evaluates the `u32` range bound `width - 2 = 1 - 2`, which underflows (a
panic in a debug build; in release the wrapped bound makes the loop read
pixels far outside the image, which panics in `get_pixel`).  The analyzer
and `recommend_dithering_mode` therefore fail instead of returning metrics. -/
theorem c10_analysis_fails_on_width_one :
    (0 < (1 : ℕ) ∧ 0 < (5 : ℕ)) ∧
      calculate_detail_frequency ⟨1, 5, fun _ _ => ⟨0, 0, 0, 255⟩⟩ = none ∧
      analyze_image ⟨1, 5, fun _ _ => ⟨0, 0, 0, 255⟩⟩ = none ∧
      recommend_dithering_mode ⟨1, 5, fun _ _ => ⟨0, 0, 0, 255⟩⟩ = none := by
  exact ⟨⟨Nat.one_pos, by norm_num⟩, rfl, rfl, rfl⟩

/- ------------------------------------------------------------------ -/
/- src/minify.rs: the dithering engines.                               -/
/- ------------------------------------------------------------------ -/

/-- `apply_no_dithering` (src/minify.rs lines 492-505): per-pixel channel
quantization, alpha passed through.  The loop over `enumerate_pixels`
writing into a fresh image is pixel-independent, so it is embedded
pointwise; coordinates outside the image keep the zero-initialized value of
`RgbaImage::new`. -/
def apply_no_dithering (rgba : Img) (factor : ℕ) : Img :=
  ⟨rgba.width, rgba.height, fun x y =>
    if x < rgba.width ∧ y < rgba.height then
      let p := rgba.pix x y
      ⟨quantize_channel (p.r : ℤ) factor, quantize_channel (p.g : ℤ) factor,
        quantize_channel (p.b : ℤ) factor, p.a⟩
    else ⟨0, 0, 0, 0⟩⟩

/-- The 4×4 Bayer matrix of `apply_ordered_dithering`, centered around
zero. -/
def BAYER_MATRIX : List (List ℤ) :=
  [[-8,  0, -6,  2],
   [ 4, -4,  6, -2],
   [-5,  3, -7,  1],
   [ 7, -1,  5, -3]]

/-- `apply_ordered_dithering` (src/minify.rs lines 671-700): Bayer threshold
scaled by `factor/32` (signed truncating division) added to each color
channel before quantization; alpha passed through. -/
def apply_ordered_dithering (rgba : Img) (factor : ℕ) : Img :=
  ⟨rgba.width, rgba.height, fun x y =>
    if x < rgba.width ∧ y < rgba.height then
      let p := rgba.pix x y
      let threshold := (BAYER_MATRIX.getD (y % 4) []).getD (x % 4) 0
      let threshold_scaled := Int.tdiv (threshold * (factor : ℤ)) 32
      ⟨quantize_channel ((p.r : ℤ) + threshold_scaled) factor,
        quantize_channel ((p.g : ℤ) + threshold_scaled) factor,
        quantize_channel ((p.b : ℤ) + threshold_scaled) factor, p.a⟩
    else ⟨0, 0, 0, 0⟩⟩

/-- A Floyd-Steinberg working-buffer entry: the `[i16; 4]` RGBA cell.
Accumulated errors stay far below the `i16` range, so `ℤ` is used. -/
structure IPix where
  r : ℤ
  g : ℤ
  b : ℤ
  a : ℤ
deriving DecidableEq, Repr

/-- The Floyd-Steinberg working buffer, indexed `buf y x` like
`working_buffer[y][x]`. -/
def FsBuf : Type := ℕ → ℕ → IPix

/-- The initial working buffer: the source pixels. Cells outside the image
keep the `[0i16; 4]` initialization. -/
def fsInit (rgba : Img) : FsBuf := fun y x =>
  if y < rgba.height ∧ x < rgba.width then
    let p := rgba.pix x y
    ⟨(p.r : ℤ), (p.g : ℤ), (p.b : ℤ), (p.a : ℤ)⟩
  else ⟨0, 0, 0, 0⟩

/-- Overwrite one working-buffer cell. -/
def fsSet (buf : FsBuf) (y x : ℕ) (p : IPix) : FsBuf := fun y' x' =>
  if y' = y ∧ x' = x then p else buf y' x'

/-- `for c in 0..3 { working_buffer[y][x][c] += e[c] }`: add an error to the
three color channels of one cell, leaving alpha alone. -/
def fsAddRGB (buf : FsBuf) (y x : ℕ) (er eg eb : ℤ) : FsBuf := fun y' x' =>
  if y' = y ∧ x' = x then
    let p := buf y x
    ⟨p.r + er, p.g + eg, p.b + eb, p.a⟩
  else buf y' x'

/-- The error-diffusion phase of one Floyd-Steinberg pixel step: the four
guarded neighbor updates, whose targets depend on the scan direction. -/
def fsDistribute (width height : ℕ) (is_forward : Bool) (buf : FsBuf)
    (y x : ℕ) (e0 e1 e2 : ℤ) : FsBuf :=
  if is_forward then
    let buf1 := if x + 1 < width then
      fsAddRGB buf y (x+1) (e0 * 7 |>.tdiv 16) (e1 * 7 |>.tdiv 16)
        (e2 * 7 |>.tdiv 16) else buf
    let buf2 := if y + 1 < height ∧ x > 0 then
      fsAddRGB buf1 (y+1) (x-1) (e0 * 3 |>.tdiv 16) (e1 * 3 |>.tdiv 16)
        (e2 * 3 |>.tdiv 16) else buf1
    let buf3 := if y + 1 < height then
      fsAddRGB buf2 (y+1) x (e0 * 5 |>.tdiv 16) (e1 * 5 |>.tdiv 16)
        (e2 * 5 |>.tdiv 16) else buf2
    if y + 1 < height ∧ x + 1 < width then
      fsAddRGB buf3 (y+1) (x+1) (e0 * 1 |>.tdiv 16) (e1 * 1 |>.tdiv 16)
        (e2 * 1 |>.tdiv 16) else buf3
  else
    let buf1 := if x > 0 then
      fsAddRGB buf y (x-1) (e0 * 7 |>.tdiv 16) (e1 * 7 |>.tdiv 16)
        (e2 * 7 |>.tdiv 16) else buf
    let buf2 := if y + 1 < height ∧ x + 1 < width then
      fsAddRGB buf1 (y+1) (x+1) (e0 * 3 |>.tdiv 16) (e1 * 3 |>.tdiv 16)
        (e2 * 3 |>.tdiv 16) else buf1
    let buf3 := if y + 1 < height then
      fsAddRGB buf2 (y+1) x (e0 * 5 |>.tdiv 16) (e1 * 5 |>.tdiv 16)
        (e2 * 5 |>.tdiv 16) else buf2
    if y + 1 < height ∧ x > 0 then
      fsAddRGB buf3 (y+1) (x-1) (e0 * 1 |>.tdiv 16) (e1 * 1 |>.tdiv 16)
        (e2 * 1 |>.tdiv 16) else buf3

/-- One pixel step of `apply_floyd_steinberg_dithering` (src/minify.rs
lines 539-648): quantize the cell, diffuse the attenuated error to the
neighbors selected by the scan direction, then write the quantized pixel
back. -/
def fsProcess (width height : ℕ) (factor : ℕ) (is_forward : Bool)
    (buf : FsBuf) (y x : ℕ) : FsBuf :=
  let old_pixel := buf y x
  let r := quantize_channel old_pixel.r factor
  let g := quantize_channel old_pixel.g factor
  let b := quantize_channel old_pixel.b factor
  let a := iclamp old_pixel.a
  let e0 := (old_pixel.r - (r : ℤ)) * 7 |>.tdiv 8
  let e1 := (old_pixel.g - (g : ℤ)) * 7 |>.tdiv 8
  let e2 := (old_pixel.b - (b : ℤ)) * 7 |>.tdiv 8
  fsSet (fsDistribute width height is_forward buf y x e0 e1 e2) y x
    ⟨(r : ℤ), (g : ℤ), (b : ℤ), a⟩

/-- One serpentine row of the Floyd-Steinberg pass: even rows scan left to
right, odd rows right to left. -/
def fsRow (width height factor : ℕ) (buf : FsBuf) (y : ℕ) : FsBuf :=
  let is_forward := y % 2 = 0
  let x_range := if is_forward then List.range width
    else (List.range width).reverse
  x_range.foldl (fun buf x => fsProcess width height factor is_forward buf y x)
    buf

/-- The whole serpentine Floyd-Steinberg pass over the working buffer. -/
def fsPass (rgba : Img) (factor : ℕ) : FsBuf :=
  (List.range rgba.height).foldl (fsRow rgba.width rgba.height factor)
    (fsInit rgba)

/-- `apply_floyd_steinberg_dithering` (src/minify.rs lines 509-667):
serpentine error diffusion over the working buffer, then clamp each channel
back to `[0,255]`. -/
def apply_floyd_steinberg_dithering (rgba : Img) (factor : ℕ) : Img :=
  ⟨rgba.width, rgba.height, fun x y =>
    if x < rgba.width ∧ y < rgba.height then
      let p := fsPass rgba factor y x
      ⟨(iclamp p.r).toNat, (iclamp p.g).toNat, (iclamp p.b).toNat,
        (iclamp p.a).toNat⟩
    else ⟨0, 0, 0, 0⟩⟩

/- ------------------------------------------------------------------ -/
/- src/median.rs: median-cut palette builder.                          -/
/- ------------------------------------------------------------------ -/

/-- `Color` from src/median.rs: an exact RGBA tuple. -/
structure Color where
  r : ℕ
  g : ℕ
  b : ℕ
  a : ℕ
deriving DecidableEq, Repr

/-- `Color::new`. -/
def Color.new (r g b a : ℕ) : Color := ⟨r, g, b, a⟩

/-- `ColorBox` from src/median.rs: member colors with frequency counts plus
per-channel bounds. -/
structure ColorBox where
  colors : List (Color × ℕ)
  min_r : ℕ
  max_r : ℕ
  min_g : ℕ
  max_g : ℕ
  min_b : ℕ
  max_b : ℕ
deriving DecidableEq, Repr

/-- The per-channel accumulator state of the bounds loop in
`ColorBox::new`. -/
structure BoxBounds where
  min_r : ℕ
  max_r : ℕ
  min_g : ℕ
  max_g : ℕ
  min_b : ℕ
  max_b : ℕ
deriving DecidableEq, Repr

/-- The single pass over the member list computing all six channel bounds
(the `for (color, _) in &colors` loop of `ColorBox::new`). -/
def boundsFold (colors : List (Color × ℕ)) (st : BoxBounds) : BoxBounds :=
  colors.foldl (fun st p =>
    ⟨min st.min_r p.1.r, max st.max_r p.1.r,
     min st.min_g p.1.g, max st.max_g p.1.g,
     min st.min_b p.1.b, max st.max_b p.1.b⟩) st

/-- `ColorBox::new` (src/median.rs lines 38-67): record the members and
their channel bounds, starting from `min = 255`, `max = 0`. -/
def ColorBox.new (colors : List (Color × ℕ)) : ColorBox :=
  let st := boundsFold colors ⟨255, 0, 255, 0, 255, 0⟩
  ⟨colors, st.min_r, st.max_r, st.min_g, st.max_g, st.min_b, st.max_b⟩

/-- `ColorBox::get_ranges`: `max - min` per channel.  For every box the
program builds the maxima dominate the minima; ℕ subtraction truncates in
the (unreachable there) empty-box case where `u8` subtraction would
panic. -/
def ColorBox.get_ranges (box_ : ColorBox) : ℕ × ℕ × ℕ :=
  (box_.max_r - box_.min_r, box_.max_g - box_.min_g, box_.max_b - box_.min_b)

/-- `ColorBox::find_widest_channel`: 0 = red, 1 = green, 2 = blue. -/
def ColorBox.find_widest_channel (box_ : ColorBox) : ℕ :=
  let (r_range, g_range, b_range) := box_.get_ranges
  if r_range ≥ g_range ∧ r_range ≥ b_range then 0
  else if g_range ≥ b_range then 1
  else 2

/-- The `sort_by_key` key of `ColorBox::split`. -/
def channel_key (channel : ℕ) (p : Color × ℕ) : ℕ :=
  match channel with
  | 0 => p.1.r
  | 1 => p.1.g
  | _ => p.1.b

/-- `ColorBox::split` (src/median.rs lines 99-125).  The source mutates
`self` in place and returns the new right box as an `Option`; here the
updated `self` is returned as the first component of the pair.  Rust's
stable `sort_by_key` is modelled by insertion sort on the key order. -/
def ColorBox.split (box_ : ColorBox) : Option (ColorBox × ColorBox) :=
  if box_.colors.length < 2 then none
  else
    let channel := box_.find_widest_channel
    let sorted := box_.colors.insertionSort
      (fun p q => channel_key channel p ≤ channel_key channel q)
    let mid := sorted.length / 2
    some (ColorBox.new (sorted.take mid), ColorBox.new (sorted.drop mid))

/-- `ColorBox::get_average_color` (src/median.rs lines 128-157): the
frequency-weighted average of the member colors, alpha forced to 255.
The sums fit easily in the source's `u64`, and each average is at most 255,
so the `as u8` casts are lossless. -/
def ColorBox.get_average_color (box_ : ColorBox) : Color :=
  if box_.colors.isEmpty then Color.new 0 0 0 255
  else
    let sum_r := (box_.colors.map (fun p => p.1.r * p.2)).sum
    let sum_g := (box_.colors.map (fun p => p.1.g * p.2)).sum
    let sum_b := (box_.colors.map (fun p => p.1.b * p.2)).sum
    let total_count := (box_.colors.map (fun p => p.2)).sum
    if total_count = 0 then Color.new 0 0 0 255
    else Color.new (sum_r / total_count) (sum_g / total_count)
      (sum_b / total_count) 255

/-- `color_distance`: squared Euclidean RGB distance. -/
def color_distance (c1 c2 : Color) : ℕ :=
  (((c1.r : ℤ) - c2.r) ^ 2 + ((c1.g : ℤ) - c2.g) ^ 2 +
    ((c1.b : ℤ) - c2.b) ^ 2).toNat

/-- The palette scan of `find_closest_palette_color`, with the `break` on an
exact match modelled by early return. -/
def findClosestLoop (color : Color) : List Color → Color → ℕ → Color
  | [], best_color, _ => best_color
  | p :: rest, best_color, best_distance =>
    let distance := color_distance color p
    if distance < best_distance then
      if distance = 0 then p else findClosestLoop color rest p distance
    else findClosestLoop color rest best_color best_distance

/-- `find_closest_palette_color` (src/median.rs lines 274-295): start from
`palette[0]` (a panic on an empty palette — the program only calls this
with the always-nonempty median-cut palette) and `u64::MAX` as the best
distance. -/
def find_closest_palette_color (color : Color) (palette : List Color) :
    Color :=
  findClosestLoop color palette (palette.headD (Color.new 0 0 0 255))
    (2 ^ 64 - 1)

/-- The sampled color-frequency table of `quantize_image_with_median`
(every 4th pixel in both directions).  The Rust `HashMap` iteration order is
unspecified; the table is modelled in first-insertion order, and none of the
verified properties depend on the order. -/
def sampled_color_counts (rgba : Img) : List (Color × ℕ) :=
  (stepRange 0 rgba.height 4).foldl (fun acc y =>
    (stepRange 0 rgba.width 4).foldl (fun (acc : List (Color × ℕ)) x =>
      let p := rgba.pix x y
      let color := Color.new p.r p.g p.b p.a
      if acc.any (fun q => q.1 = color) then
        acc.map (fun q => if q.1 = color then (q.1, q.2 + 1) else q)
      else acc ++ [(color, 1)]) acc) []

/-- The scan of the `while boxes.len() < max_colors` loop that finds the box
with the largest summed channel range (strict `>`, so the earliest maximum
wins). -/
def select_largest_box (boxes : List ColorBox) : ℕ :=
  (boxes.enum.foldl (fun (st : ℕ × ℕ) ib =>
    let (r, g, b) := ib.2.get_ranges
    let range := r + g + b
    if range > st.2 then (ib.1, range) else st) (0, 0)).1

/-- The box-splitting loop of `quantize_image_with_median`: repeatedly split
the widest box until `max_colors` boxes exist or the chosen box cannot be
split.  Each iteration grows the list by at most one, so `max_colors` fuel
is enough for the loop to reach its exit condition exactly as the source
`while` does. -/
def split_loop (max_colors : ℕ) : ℕ → List ColorBox → List ColorBox
  | 0, boxes => boxes
  | fuel + 1, boxes =>
    if boxes.length < max_colors then
      let largest_idx := select_largest_box boxes
      match (boxes.getD largest_idx (ColorBox.new [])).split with
      | some (b1, b2) => split_loop max_colors fuel (boxes.set largest_idx b1 ++ [b2])
      | none => boxes
    else boxes

/-- The final box list of `quantize_image_with_median`. -/
def median_boxes (rgba : Img) (max_colors : ℕ) : List ColorBox :=
  split_loop max_colors max_colors [ColorBox.new (sampled_color_counts rgba)]

/-- The palette extracted from the final boxes. -/
def median_palette (rgba : Img) (max_colors : ℕ) : List Color :=
  (median_boxes rgba max_colors).map ColorBox.get_average_color

/-- `quantize_image_with_median` (src/median.rs lines 160-271): map every
pixel to its nearest palette color.  The parallel per-row mapping with a
row-local cache computes exactly `find_closest_palette_color` for each
pixel (the cache only memoizes that pure function), and rows are written
back in deterministic order, so the output is embedded pointwise. -/
def quantize_image_with_median (rgba : Img) (max_colors : ℕ) : Img :=
  let palette := median_palette rgba max_colors
  ⟨rgba.width, rgba.height, fun x y =>
    if x < rgba.width ∧ y < rgba.height then
      let p := rgba.pix x y
      let original_color := Color.new p.r p.g p.b p.a
      let q := find_closest_palette_color original_color palette
      ⟨q.r, q.g, q.b, q.a⟩
    else ⟨0, 0, 0, 0⟩⟩

/- ------------------------------------------------------------------ -/
/- C7: ColorBox invariants.                                            -/
/- ------------------------------------------------------------------ -/

/-- The bounds loop only tightens the accumulator: minima never increase,
maxima never decrease. -/
lemma boundsFold_mono (cs : List (Color × ℕ)) (st : BoxBounds) :
    (boundsFold cs st).min_r ≤ st.min_r ∧ st.max_r ≤ (boundsFold cs st).max_r ∧
    (boundsFold cs st).min_g ≤ st.min_g ∧ st.max_g ≤ (boundsFold cs st).max_g ∧
    (boundsFold cs st).min_b ≤ st.min_b ∧ st.max_b ≤ (boundsFold cs st).max_b := by
  induction cs generalizing st with
  | nil => exact ⟨le_rfl, le_rfl, le_rfl, le_rfl, le_rfl, le_rfl⟩
  | cons p t ih =>
    have h := ih ⟨min st.min_r p.1.r, max st.max_r p.1.r,
      min st.min_g p.1.g, max st.max_g p.1.g,
      min st.min_b p.1.b, max st.max_b p.1.b⟩
    exact ⟨h.1.trans (min_le_left _ _), (le_max_left _ _).trans h.2.1,
      h.2.2.1.trans (min_le_left _ _), (le_max_left _ _).trans h.2.2.2.1,
      h.2.2.2.2.1.trans (min_le_left _ _),
      (le_max_left _ _).trans h.2.2.2.2.2⟩

/-- Every member's channels are inside the bounds computed by the bounds
loop. -/
lemma boundsFold_mem (cs : List (Color × ℕ)) :
    ∀ (st : BoxBounds) (p : Color × ℕ), p ∈ cs →
    ((boundsFold cs st).min_r ≤ p.1.r ∧ p.1.r ≤ (boundsFold cs st).max_r) ∧
    ((boundsFold cs st).min_g ≤ p.1.g ∧ p.1.g ≤ (boundsFold cs st).max_g) ∧
    ((boundsFold cs st).min_b ≤ p.1.b ∧ p.1.b ≤ (boundsFold cs st).max_b) := by
  induction cs with
  | nil => intro st p hp; cases hp
  | cons q t ih =>
    intro st p hp
    have hq : boundsFold (q :: t) st = boundsFold t
        ⟨min st.min_r q.1.r, max st.max_r q.1.r, min st.min_g q.1.g,
          max st.max_g q.1.g, min st.min_b q.1.b, max st.max_b q.1.b⟩ := rfl
    rcases List.mem_cons.mp hp with hp | hp
    · subst hp
      rw [hq]
      have h := boundsFold_mono t ⟨min st.min_r p.1.r, max st.max_r p.1.r,
        min st.min_g p.1.g, max st.max_g p.1.g, min st.min_b p.1.b,
        max st.max_b p.1.b⟩
      exact ⟨⟨h.1.trans (min_le_right _ _), (le_max_right _ _).trans h.2.1⟩,
        ⟨h.2.2.1.trans (min_le_right _ _),
          (le_max_right _ _).trans h.2.2.2.1⟩,
        ⟨h.2.2.2.2.1.trans (min_le_right _ _),
          (le_max_right _ _).trans h.2.2.2.2.2⟩⟩
    · rw [hq]
      exact ih _ p hp

/-- Channel bounds of a `ColorBox.new` box, packaged on the box itself. -/
lemma ColorBox.new_bounds (cs : List (Color × ℕ)) (p : Color × ℕ)
    (hp : p ∈ (ColorBox.new cs).colors) :
    ((ColorBox.new cs).min_r ≤ p.1.r ∧ p.1.r ≤ (ColorBox.new cs).max_r) ∧
    ((ColorBox.new cs).min_g ≤ p.1.g ∧ p.1.g ≤ (ColorBox.new cs).max_g) ∧
    ((ColorBox.new cs).min_b ≤ p.1.b ∧ p.1.b ≤ (ColorBox.new cs).max_b) :=
  boundsFold_mem cs ⟨255, 0, 255, 0, 255, 0⟩ p hp

/-- **C7.** Every box built by `ColorBox::new` bounds all of its members'
channels, both boxes produced by `ColorBox::split` do too (they are built
by `ColorBox::new`), and `split` partitions the members: when the parent's
member colors are pairwise distinct (as they are for every box the program
builds, since members originate from `HashMap` keys), no member entry lands
in both halves. -/
theorem c7_colorbox_invariants :
    (∀ (cs : List (Color × ℕ)) (p : Color × ℕ),
      p ∈ (ColorBox.new cs).colors →
      ((ColorBox.new cs).min_r ≤ p.1.r ∧ p.1.r ≤ (ColorBox.new cs).max_r) ∧
      ((ColorBox.new cs).min_g ≤ p.1.g ∧ p.1.g ≤ (ColorBox.new cs).max_g) ∧
      ((ColorBox.new cs).min_b ≤ p.1.b ∧ p.1.b ≤ (ColorBox.new cs).max_b)) ∧
    (∀ (b b1 b2 : ColorBox), b.split = some (b1, b2) →
      (∀ p ∈ b1.colors,
        (b1.min_r ≤ p.1.r ∧ p.1.r ≤ b1.max_r) ∧
        (b1.min_g ≤ p.1.g ∧ p.1.g ≤ b1.max_g) ∧
        (b1.min_b ≤ p.1.b ∧ p.1.b ≤ b1.max_b)) ∧
      (∀ p ∈ b2.colors,
        (b2.min_r ≤ p.1.r ∧ p.1.r ≤ b2.max_r) ∧
        (b2.min_g ≤ p.1.g ∧ p.1.g ≤ b2.max_g) ∧
        (b2.min_b ≤ p.1.b ∧ p.1.b ≤ b2.max_b)) ∧
      ((b.colors.map Prod.fst).Nodup →
        ∀ p, p ∈ b1.colors → p ∉ b2.colors)) := by
  refine ⟨ColorBox.new_bounds, ?_⟩
  intro b b1 b2 hsplit
  unfold ColorBox.split at hsplit
  by_cases hl : b.colors.length < 2
  · rw [if_pos hl] at hsplit
    cases hsplit
  · rw [if_neg hl] at hsplit
    set channel := b.find_widest_channel with hch
    set sorted := b.colors.insertionSort
      (fun p q => channel_key channel p ≤ channel_key channel q) with hs
    obtain ⟨h1, h2⟩ : ColorBox.new (sorted.take (sorted.length / 2)) = b1 ∧
        ColorBox.new (sorted.drop (sorted.length / 2)) = b2 := by
      have := Option.some.inj hsplit
      exact ⟨congrArg Prod.fst this, congrArg Prod.snd this⟩
    subst h1 h2
    refine ⟨fun p hp => ColorBox.new_bounds _ p hp,
      fun p hp => ColorBox.new_bounds _ p hp, ?_⟩
    intro hnd p hp1 hp2
    have hperm : sorted.Perm b.colors := List.perm_insertionSort _ _
    have hndsorted : (sorted.map Prod.fst).Nodup :=
      ((hperm.map Prod.fst).nodup_iff).mpr hnd
    have happ : sorted.take (sorted.length / 2) ++
        sorted.drop (sorted.length / 2) = sorted :=
      List.take_append_drop _ _
    have hndapp : ((sorted.take (sorted.length / 2)).map Prod.fst ++
        (sorted.drop (sorted.length / 2)).map Prod.fst).Nodup := by
      rw [← List.map_append, happ]
      exact hndsorted
    have hdisj := List.disjoint_of_nodup_append hndapp
    exact hdisj (List.mem_map_of_mem Prod.fst hp1)
      (List.mem_map_of_mem Prod.fst hp2)

/-- Witness for C7: bounds of a member of a concrete two-color box, and the
disjointness of the two halves of its split. -/
theorem c7_colorbox_invariants_witness :
    (((ColorBox.new [(Color.new 10 0 0 255, 1), (Color.new 200 5 7 255, 3)]).min_r
        ≤ 10 ∧
      10 ≤ (ColorBox.new [(Color.new 10 0 0 255, 1),
        (Color.new 200 5 7 255, 3)]).max_r) ∧
      ((ColorBox.new [(Color.new 10 0 0 255, 1),
        (Color.new 200 5 7 255, 3)]).min_g ≤ 0 ∧
      0 ≤ (ColorBox.new [(Color.new 10 0 0 255, 1),
        (Color.new 200 5 7 255, 3)]).max_g) ∧
      ((ColorBox.new [(Color.new 10 0 0 255, 1),
        (Color.new 200 5 7 255, 3)]).min_b ≤ 0 ∧
      0 ≤ (ColorBox.new [(Color.new 10 0 0 255, 1),
        (Color.new 200 5 7 255, 3)]).max_b)) ∧
    (Color.new 10 0 0 255, 1) ∉
      (ColorBox.new [(Color.new 200 5 7 255, 3)]).colors := by
  refine ⟨c7_colorbox_invariants.1 _ (Color.new 10 0 0 255, 1) (by decide), ?_⟩
  exact (c7_colorbox_invariants.2
    (ColorBox.new [(Color.new 10 0 0 255, 1), (Color.new 200 5 7 255, 3)])
    (ColorBox.new [(Color.new 10 0 0 255, 1)])
    (ColorBox.new [(Color.new 200 5 7 255, 3)]) (by decide)).2.2 (by decide)
    (Color.new 10 0 0 255, 1) (by decide)

/- ------------------------------------------------------------------ -/
/- C4: median-cut palette size and output membership.                  -/
/- ------------------------------------------------------------------ -/

/-- The splitting loop keeps the box list nonempty and never exceeds
`max_colors` boxes: a split only happens while `length < max_colors` and
grows the list by exactly one. -/
lemma split_loop_length (max_colors : ℕ) :
    ∀ (fuel : ℕ) (boxes : List ColorBox), 1 ≤ boxes.length →
      boxes.length ≤ max_colors →
      1 ≤ (split_loop max_colors fuel boxes).length ∧
        (split_loop max_colors fuel boxes).length ≤ max_colors := by
  intro fuel
  induction fuel with
  | zero => intro boxes h1 h2; exact ⟨h1, h2⟩
  | succ n ih =>
    intro boxes h1 h2
    unfold split_loop
    by_cases hlt : boxes.length < max_colors
    · rw [if_pos hlt]
      rcases hsplit : (boxes.getD (select_largest_box boxes)
          (ColorBox.new [])).split with _ | ⟨b1, b2⟩
      · simp only [hsplit]
        exact ⟨h1, h2⟩
      · simp only [hsplit]
        have hlen : (boxes.set (select_largest_box boxes) b1 ++ [b2]).length
            = boxes.length + 1 := by
          simp [List.length_append, List.length_set]
        exact ih _ (by omega) (by omega)
    · rw [if_neg hlt]
      exact ⟨h1, h2⟩

/-- The palette scan returns either the running best or a scanned palette
entry. -/
lemma findClosestLoop_mem (color : Color) :
    ∀ (l : List Color) (best : Color) (bd : ℕ),
      findClosestLoop color l best bd = best ∨
        findClosestLoop color l best bd ∈ l := by
  intro l
  induction l with
  | nil => intro best bd; exact Or.inl rfl
  | cons p rest ih =>
    intro best bd
    unfold findClosestLoop
    by_cases h1 : color_distance color p < bd
    · rw [if_pos h1]
      by_cases h2 : color_distance color p = 0
      · rw [if_pos h2]
        exact Or.inr (List.mem_cons_self _ _)
      · rw [if_neg h2]
        rcases ih p (color_distance color p) with h | h
        · exact Or.inr (by rw [h]; exact List.mem_cons_self _ _)
        · exact Or.inr (List.mem_cons_of_mem _ h)
    · rw [if_neg h1]
      rcases ih best bd with h | h
      · exact Or.inl h
      · exact Or.inr (List.mem_cons_of_mem _ h)

/-- On a nonempty palette the closest-color search returns a palette
member. -/
lemma find_closest_palette_color_mem (color : Color) (palette : List Color)
    (h : palette ≠ []) :
    find_closest_palette_color color palette ∈ palette := by
  unfold find_closest_palette_color
  rcases findClosestLoop_mem color palette
      (palette.headD (Color.new 0 0 0 255)) (2 ^ 64 - 1) with heq | hmem
  · rw [heq]
    cases palette with
    | nil => exact absurd rfl h
    | cons q t => exact List.mem_cons_self _ _
  · exact hmem

/-- **C4.** For every non-empty image and requested palette size
`max_colors ≥ 1`, the median-cut palette has between 1 and `max_colors`
entries, and every in-bounds output pixel of
`quantize_image_with_median` carries the channels of some palette entry. -/
theorem c4_median_palette_size_and_membership (rgba : Img) (max_colors : ℕ)
    (hw : 0 < rgba.width) (hh : 0 < rgba.height) (hN : 1 ≤ max_colors) :
    1 ≤ (median_palette rgba max_colors).length ∧
      (median_palette rgba max_colors).length ≤ max_colors ∧
      ∀ x y, x < rgba.width → y < rgba.height →
        ∃ q ∈ median_palette rgba max_colors,
          (quantize_image_with_median rgba max_colors).pix x y =
            ⟨q.r, q.g, q.b, q.a⟩ := by
  clear hw hh
  have hboxes := split_loop_length max_colors max_colors
    [ColorBox.new (sampled_color_counts rgba)] (by simp) (by simpa using hN)
  have hlen : (median_palette rgba max_colors).length =
      (median_boxes rgba max_colors).length := List.length_map _ _
  have hpal1 : 1 ≤ (median_palette rgba max_colors).length := by
    rw [hlen]; exact hboxes.1
  refine ⟨hpal1, by rw [hlen]; exact hboxes.2, ?_⟩
  intro x y hx hy
  have hne : median_palette rgba max_colors ≠ [] := by
    intro hnil
    rw [hnil] at hpal1
    exact absurd hpal1 (by simp)
  refine ⟨find_closest_palette_color
    (Color.new (rgba.pix x y).r (rgba.pix x y).g (rgba.pix x y).b
      (rgba.pix x y).a) (median_palette rgba max_colors),
    find_closest_palette_color_mem _ _ hne, ?_⟩
  show (if x < rgba.width ∧ y < rgba.height then _ else _) = _
  rw [if_pos ⟨hx, hy⟩]

/-- Witness for C4 at a 1×1 image with palette size 2. -/
theorem c4_median_palette_witness :
    1 ≤ (median_palette ⟨1, 1, fun _ _ => ⟨5, 6, 7, 8⟩⟩ 2).length ∧
      (median_palette ⟨1, 1, fun _ _ => ⟨5, 6, 7, 8⟩⟩ 2).length ≤ 2 ∧
      ∃ q ∈ median_palette ⟨1, 1, fun _ _ => ⟨5, 6, 7, 8⟩⟩ 2,
        (quantize_image_with_median ⟨1, 1, fun _ _ => ⟨5, 6, 7, 8⟩⟩ 2).pix 0 0 =
          ⟨q.r, q.g, q.b, q.a⟩ := by
  have h := c4_median_palette_size_and_membership
    ⟨1, 1, fun _ _ => ⟨5, 6, 7, 8⟩⟩ 2 (by decide) (by decide) (by decide)
  exact ⟨h.1, h.2.1, h.2.2 0 0 (by decide) (by decide)⟩

/- ------------------------------------------------------------------ -/
/- C3: alpha behavior of the four quantization paths.                  -/
/- ------------------------------------------------------------------ -/

/-- Clamping to `[0,255]` is idempotent. -/
lemma iclamp_idem (v : ℤ) : iclamp (iclamp v) = iclamp v := by
  unfold iclamp
  omega

/-- `iclamp` fixes values already in `[0,255]`. -/
lemma iclamp_of_le (n : ℕ) (h : n ≤ 255) : iclamp (n : ℤ) = (n : ℤ) := by
  unfold iclamp
  omega

/-- Adding error to the color channels of a cell never changes any cell's
alpha. -/
lemma fsAddRGB_alpha (buf : FsBuf) (y x : ℕ) (er eg eb : ℤ) (y' x' : ℕ) :
    ((fsAddRGB buf y x er eg eb) y' x').a = (buf y' x').a := by
  unfold fsAddRGB
  by_cases h : y' = y ∧ x' = x
  · rw [if_pos h]
    obtain ⟨h1, h2⟩ := h
    subst h1; subst h2
    rfl
  · rw [if_neg h]

/-- A guarded error-diffusion update never changes any cell's alpha. -/
lemma ite_fsAddRGB_alpha (c : Prop) [Decidable c] (buf : FsBuf) (y x : ℕ)
    (er eg eb : ℤ) (y' x' : ℕ) :
    ((if c then fsAddRGB buf y x er eg eb else buf) y' x').a =
      (buf y' x').a := by
  by_cases h : c
  · rw [if_pos h]; exact fsAddRGB_alpha buf y x er eg eb y' x'
  · rw [if_neg h]

/-- The whole diffusion phase of one pixel step never changes any cell's
alpha. -/
lemma fsDistribute_alpha (width height : ℕ) (is_forward : Bool)
    (buf : FsBuf) (y x : ℕ) (e0 e1 e2 : ℤ) (y' x' : ℕ) :
    ((fsDistribute width height is_forward buf y x e0 e1 e2) y' x').a =
      (buf y' x').a := by
  unfold fsDistribute
  cases is_forward <;>
    simp only [Bool.false_eq_true, if_true, if_false, ite_fsAddRGB_alpha]

/-- The alpha invariant of the Floyd-Steinberg pass: every cell's alpha is
the initial alpha, possibly clamped (the clamp happens exactly when the cell
has been processed as the scan center). -/
def fsAlphaOK (init buf : FsBuf) : Prop :=
  ∀ y x, (buf y x).a = (init y x).a ∨ (buf y x).a = iclamp ((init y x).a)

/-- One pixel step preserves the alpha invariant. -/
lemma fsProcess_alpha (init : FsBuf) (width height factor : ℕ)
    (is_forward : Bool) (buf : FsBuf) (y x : ℕ)
    (hinv : fsAlphaOK init buf) :
    fsAlphaOK init (fsProcess width height factor is_forward buf y x) := by
  intro y' x'
  unfold fsProcess fsSet
  by_cases h : y' = y ∧ x' = x
  · rw [if_pos h]
    obtain ⟨h1, h2⟩ := h
    subst h1; subst h2
    rcases hinv y' x' with hc | hc
    · exact Or.inr (by rw [hc])
    · exact Or.inr (by rw [hc, iclamp_idem])
  · rw [if_neg h]
    rw [fsDistribute_alpha]
    exact hinv y' x'

/-- A fold of pixel steps preserves the alpha invariant. -/
lemma foldl_fsProcess_alpha (init : FsBuf) (width height factor : ℕ)
    (is_forward : Bool) (y : ℕ) :
    ∀ (xs : List ℕ) (buf : FsBuf), fsAlphaOK init buf →
      fsAlphaOK init (xs.foldl
        (fun buf x => fsProcess width height factor is_forward buf y x) buf) := by
  intro xs
  induction xs with
  | nil => intro buf h; exact h
  | cons x t ih =>
    intro buf h
    exact ih _ (fsProcess_alpha init width height factor is_forward buf y x h)

/-- A serpentine row preserves the alpha invariant. -/
lemma fsRow_alpha (init : FsBuf) (width height factor : ℕ) (buf : FsBuf)
    (y : ℕ) (hinv : fsAlphaOK init buf) :
    fsAlphaOK init (fsRow width height factor buf y) :=
  foldl_fsProcess_alpha init width height factor _ y _ buf hinv

/-- The full pass preserves the alpha invariant from the initial buffer. -/
lemma fsPass_alpha (rgba : Img) (factor : ℕ) :
    fsAlphaOK (fsInit rgba) (fsPass rgba factor) := by
  unfold fsPass
  have h : ∀ (ys : List ℕ) (buf : FsBuf), fsAlphaOK (fsInit rgba) buf →
      fsAlphaOK (fsInit rgba)
        (ys.foldl (fsRow rgba.width rgba.height factor) buf) := by
    intro ys
    induction ys with
    | nil => intro buf h; exact h
    | cons y t ih =>
      intro buf h
      exact ih _ (fsRow_alpha (fsInit rgba) rgba.width rgba.height factor
        buf y h)
  exact h _ _ (fun y x => Or.inl rfl)

/-- Every median-cut palette entry carries alpha 255: all branches of
`get_average_color` return 255. -/
lemma get_average_color_alpha (box_ : ColorBox) :
    box_.get_average_color.a = 255 := by
  unfold ColorBox.get_average_color
  by_cases h1 : box_.colors.isEmpty
  · rw [if_pos h1]; rfl
  · rw [if_neg h1]
    by_cases h2 : (box_.colors.map (fun p => p.2)).sum = 0
    · simp only [h2, if_pos]
      rfl
    · simp only [h2, if_neg]
      rfl

/-- The splitting loop never empties the box list. -/
lemma split_loop_ne_nil (max_colors : ℕ) :
    ∀ (fuel : ℕ) (boxes : List ColorBox), boxes ≠ [] →
      split_loop max_colors fuel boxes ≠ [] := by
  intro fuel
  induction fuel with
  | zero => intro boxes h; exact h
  | succ n ih =>
    intro boxes h
    unfold split_loop
    by_cases hlt : boxes.length < max_colors
    · rw [if_pos hlt]
      rcases hsplit : (boxes.getD (select_largest_box boxes)
          (ColorBox.new [])).split with _ | ⟨b1, b2⟩
      · simp only [hsplit]
        exact h
      · simp only [hsplit]
        exact ih _ (by simp)
    · rw [if_neg hlt]
      exact h

/-- The median-cut palette is never empty. -/
lemma median_palette_ne_nil (rgba : Img) (max_colors : ℕ) :
    median_palette rgba max_colors ≠ [] := by
  intro hnil
  unfold median_palette at hnil
  have hboxes : median_boxes rgba max_colors = [] :=
    List.map_eq_nil_iff.mp hnil
  exact split_loop_ne_nil max_colors max_colors
    [ColorBox.new (sampled_color_counts rgba)] (by simp) hboxes

/-- **C3.** The `None`, `Ordered` and Floyd-Steinberg engines leave every
in-bounds pixel's alpha equal to the input alpha (for Floyd-Steinberg via
the working-buffer invariant, using that the source alpha is an 8-bit
value), while median-cut quantization writes alpha 255 into every in-bounds
output pixel regardless of the source alpha. -/
theorem c3_alpha_channel_behavior :
    (∀ (rgba : Img) (factor x y : ℕ), x < rgba.width → y < rgba.height →
      ((apply_no_dithering rgba factor).pix x y).a = (rgba.pix x y).a) ∧
    (∀ (rgba : Img) (factor x y : ℕ), x < rgba.width → y < rgba.height →
      ((apply_ordered_dithering rgba factor).pix x y).a = (rgba.pix x y).a) ∧
    (∀ (rgba : Img) (factor x y : ℕ), x < rgba.width → y < rgba.height →
      (rgba.pix x y).a ≤ 255 →
      ((apply_floyd_steinberg_dithering rgba factor).pix x y).a =
        (rgba.pix x y).a) ∧
    (∀ (rgba : Img) (max_colors x y : ℕ), x < rgba.width → y < rgba.height →
      ((quantize_image_with_median rgba max_colors).pix x y).a = 255) := by
  refine ⟨?_, ?_, ?_, ?_⟩
  · intro rgba factor x y hx hy
    simp only [apply_no_dithering, hx, hy, and_self, if_true]
  · intro rgba factor x y hx hy
    simp only [apply_ordered_dithering, hx, hy, and_self, if_true]
  · intro rgba factor x y hx hy ha
    simp only [apply_floyd_steinberg_dithering, hx, hy, and_self, if_true]
    have hinit : ((fsInit rgba) y x).a = ((rgba.pix x y).a : ℤ) := by
      simp only [fsInit, hx, hy, and_self, if_true]
    have hfix : iclamp ((rgba.pix x y).a : ℤ) = ((rgba.pix x y).a : ℤ) :=
      iclamp_of_le _ ha
    rcases fsPass_alpha rgba factor y x with hc | hc
    · rw [hc, hinit, hfix]
      exact Int.toNat_natCast _
    · rw [hc, hinit, hfix, hfix]
      exact Int.toNat_natCast _
  · intro rgba max_colors x y hx hy
    simp only [quantize_image_with_median, hx, hy, and_self, if_true]
    have hne : median_palette rgba max_colors ≠ [] :=
      median_palette_ne_nil rgba max_colors
    have hmem := find_closest_palette_color_mem
      (Color.new (rgba.pix x y).r (rgba.pix x y).g (rgba.pix x y).b
        (rgba.pix x y).a) (median_palette rgba max_colors) hne
    obtain ⟨b, _, hb⟩ := List.mem_map.mp hmem
    rw [← hb]
    exact get_average_color_alpha b

/-- Witness for C3 at a 1×1 image with alpha 40 (factor 32, palette size 4):
the three dithering engines keep alpha 40, median-cut forces 255. -/
theorem c3_alpha_channel_behavior_witness :
    ((apply_no_dithering ⟨1, 1, fun _ _ => ⟨10, 20, 30, 40⟩⟩ 32).pix 0 0).a
        = 40 ∧
      ((apply_ordered_dithering ⟨1, 1, fun _ _ => ⟨10, 20, 30, 40⟩⟩ 32).pix
        0 0).a = 40 ∧
      ((apply_floyd_steinberg_dithering
        ⟨1, 1, fun _ _ => ⟨10, 20, 30, 40⟩⟩ 32).pix 0 0).a = 40 ∧
      ((quantize_image_with_median
        ⟨1, 1, fun _ _ => ⟨10, 20, 30, 40⟩⟩ 4).pix 0 0).a = 255 :=
  ⟨(c3_alpha_channel_behavior.1 _ 32 0 0 (by decide) (by decide)).trans rfl,
    (c3_alpha_channel_behavior.2.1 _ 32 0 0 (by decide) (by decide)).trans rfl,
    (c3_alpha_channel_behavior.2.2.1 _ 32 0 0 (by decide) (by decide)
      (by decide)).trans rfl,
    c3_alpha_channel_behavior.2.2.2 _ 4 0 0 (by decide) (by decide)⟩

/- ------------------------------------------------------------------ -/
/- src/minify.rs: the selective denoiser.                              -/
/- ------------------------------------------------------------------ -/

/-- `pixel_diff` (src/minify.rs lines 801-807): mean absolute per-channel
RGB difference. -/
def pixel_diff (p1 p2 : Rgba) : ℚ :=
  let dr := (((p1.r : ℤ) - p2.r).natAbs : ℚ)
  let dg := (((p1.g : ℤ) - p2.g).natAbs : ℚ)
  let db := (((p1.b : ℤ) - p2.b).natAbs : ℚ)
  (dr + dg + db) / 3

/-- The interior-pixel test used by both `analyze_block` and
`apply_median_filter_to_block`: note that `x > 0` / `y > 0` compare against
the *image* origin, not the block origin, while `end_x`/`end_y` are block
bounds. -/
def block_interior (end_x end_y x y : ℕ) : Prop :=
  x > 0 ∧ y > 0 ∧ x < end_x - 1 ∧ y < end_y - 1

instance (end_x end_y x y : ℕ) : Decidable (block_interior end_x end_y x y) := by
  unfold block_interior
  infer_instance

/-- One interior-pixel step of the `analyze_block` accumulator
`(edge_count, total_pixels, variance_sum)` (src/minify.rs lines 752-788). -/
def block_stats_step (rgba : Img) (end_x end_y y : ℕ) (st : ℕ × ℕ × ℚ)
    (x : ℕ) : ℕ × ℕ × ℚ :=
  if block_interior end_x end_y x y then
    let center := rgba.pix x y
    let right := rgba.pix (x + 1) y
    let bottom := rgba.pix x (y + 1)
    let diff_h := pixel_diff center right
    let diff_v := pixel_diff center bottom
    let edge_count := if diff_h > 30 ∨ diff_v > 30 then st.1 + 1 else st.1
    let neighbors := [rgba.pix (x - 1) y, rgba.pix (x + 1) y,
      rgba.pix x (y - 1), rgba.pix x (y + 1)]
    let neighbor_diffs := neighbors.foldl
      (fun (d : ℚ) n => d + pixel_diff center n) 0
    (edge_count, st.2.1 + 1, st.2.2 + neighbor_diffs / 4)
  else st

/-- One row of the `analyze_block` accumulator loop. -/
def block_stats_row (rgba : Img) (start_x end_x end_y : ℕ) (st : ℕ × ℕ × ℚ)
    (y : ℕ) : ℕ × ℕ × ℚ :=
  (rangeList start_x end_x).foldl (block_stats_step rgba end_x end_y y) st

/-- The accumulator pass of `analyze_block` (src/minify.rs lines 745-798):
`(edge_count, total_pixels, variance_sum)`. -/
def block_stats (rgba : Img) (start_x start_y end_x end_y : ℕ) :
    ℕ × ℕ × ℚ :=
  (rangeList start_y end_y).foldl (block_stats_row rgba start_x end_x end_y)
    ((0 : ℕ), (0 : ℕ), (0 : ℚ))

/-- The `edge_density` value computed by `analyze_block`. -/
def block_edge_density (rgba : Img) (start_x start_y end_x end_y : ℕ) : ℚ :=
  let st := block_stats rgba start_x start_y end_x end_y
  if st.2.1 > 0 then (st.1 : ℚ) / st.2.1 else 0

/-- The `avg_variance` value computed by `analyze_block`. -/
def block_avg_variance (rgba : Img) (start_x start_y end_x end_y : ℕ) : ℚ :=
  let st := block_stats rgba start_x start_y end_x end_y
  if st.2.1 > 0 then st.2.2 / st.2.1 else 0

/-- `analyze_block`: `(is_gradient, noise_level)`, where
`is_gradient = edge_density < 0.15 ∧ avg_variance > 5.0`. -/
def analyze_block (rgba : Img) (start_x start_y end_x end_y : ℕ) :
    Bool × ℚ :=
  (decide (block_edge_density rgba start_x start_y end_x end_y < 3/20 ∧
    block_avg_variance rgba start_x start_y end_x end_y > 5),
   block_avg_variance rgba start_x start_y end_x end_y)

/-- Functional update of one output pixel (`dest.put_pixel`). -/
def pixSet (dest : ℕ → ℕ → Rgba) (x y : ℕ) (p : Rgba) : ℕ → ℕ → Rgba :=
  fun x' y' => if x' = x ∧ y' = y then p else dest x' y'

/-- The channel-wise 3×3 median written by
`apply_median_filter_to_block` for one interior pixel: the nine neighborhood
values are collected row by row (`dy` outer, `dx` inner), each channel is
sorted, the fifth element is taken, and the center's alpha is kept. -/
def median_pixel (source : Img) (x y : ℕ) : Rgba :=
  let cells := [source.pix (x-1) (y-1), source.pix x (y-1),
    source.pix (x+1) (y-1), source.pix (x-1) y, source.pix x y,
    source.pix (x+1) y, source.pix (x-1) (y+1), source.pix x (y+1),
    source.pix (x+1) (y+1)]
  let r_values := (cells.map (fun p => p.r)).insertionSort (· ≤ ·)
  let g_values := (cells.map (fun p => p.g)).insertionSort (· ≤ ·)
  let b_values := (cells.map (fun p => p.b)).insertionSort (· ≤ ·)
  ⟨r_values.getD 4 0, g_values.getD 4 0, b_values.getD 4 0,
    (source.pix x y).a⟩

/-- `apply_median_filter_to_block` (src/minify.rs lines 810-850): replace
every pixel of the block passing the interior test by its 3×3 median, read
from the unmodified source. -/
def apply_median_filter_to_block (source : Img) (dest : ℕ → ℕ → Rgba)
    (start_x start_y end_x end_y : ℕ) : ℕ → ℕ → Rgba :=
  (rangeList start_y end_y).foldl (fun dest y =>
    (rangeList start_x end_x).foldl (fun dest x =>
      if block_interior end_x end_y x y then
        pixSet dest x y (median_pixel source x y)
      else dest) dest) dest

/-- The 8×8 block origins visited by `apply_selective_denoising`, in scan
order (`block_y` outer, `block_x` inner). -/
def blocksOf (img : Img) : List (ℕ × ℕ) :=
  (stepRange 0 img.height 8).flatMap (fun block_y =>
    (stepRange 0 img.width 8).map (fun block_x => (block_x, block_y)))

/-- `apply_selective_denoising` (src/minify.rs lines 713-741): analyze each
8×8 block of the input and median-filter the blocks flagged as
noisy gradients (`is_gradient ∧ noise_level > 15`).  Analysis and filter
input both read the original image (`rgba`); writes go to the copy. -/
def apply_selective_denoising (img : Img) : Img :=
  ⟨img.width, img.height,
    (blocksOf img).foldl (fun dest blk =>
      let block_end_x := min (blk.1 + 8) img.width
      let block_end_y := min (blk.2 + 8) img.height
      let analysis := analyze_block img blk.1 blk.2 block_end_x block_end_y
      if analysis.1 ∧ analysis.2 > 15 then
        apply_median_filter_to_block img dest blk.1 blk.2 block_end_x
          block_end_y
      else dest) img.pix⟩

/- ------------------------------------------------------------------ -/
/- Pointwise characterization of the denoiser (used by C5 and C9).     -/
/- ------------------------------------------------------------------ -/

/-- One filtered row changes exactly the row's interior pixels, each to its
3×3 median. -/
lemma filter_row_pix (source : Img) (end_x end_y y : ℕ) :
    ∀ (xs : List ℕ) (dest : ℕ → ℕ → Rgba) (X Y : ℕ),
      (xs.foldl (fun dest x =>
        if block_interior end_x end_y x y then
          pixSet dest x y (median_pixel source x y)
        else dest) dest) X Y =
      if X ∈ xs ∧ Y = y ∧ block_interior end_x end_y X y then
        median_pixel source X y
      else dest X Y := by
  intro xs
  induction xs with
  | nil =>
    intro dest X Y
    simp
  | cons x t ih =>
    intro dest X Y
    rw [List.foldl_cons, ih]
    by_cases hc : X ∈ t ∧ Y = y ∧ block_interior end_x end_y X y
    · rw [if_pos hc, if_pos ⟨List.mem_cons_of_mem _ hc.1, hc.2⟩]
    · rw [if_neg hc]
      by_cases hx : X = x ∧ Y = y ∧ block_interior end_x end_y X y
      · obtain ⟨hx1, hx2, hx3⟩ := hx
        subst hx1
        subst hx2
        rw [if_pos hx3]
        rw [if_pos ⟨List.mem_cons_self _ _, rfl, hx3⟩]
        unfold pixSet
        rw [if_pos ⟨rfl, rfl⟩]
      · have hcond : ¬ (X ∈ x :: t ∧ Y = y ∧
            block_interior end_x end_y X y) := by
          intro ⟨hm, h2, h3⟩
          rcases List.mem_cons.mp hm with h | h
          · exact hx ⟨h, h2, h3⟩
          · exact hc ⟨h, h2, h3⟩
        rw [if_neg hcond]
        by_cases hi : block_interior end_x end_y x y
        · rw [if_pos hi]
          unfold pixSet
          rw [if_neg (fun hh : X = x ∧ Y = y =>
            hx ⟨hh.1, hh.2, hh.1 ▸ hi⟩)]
        · rw [if_neg hi]

/-- One filtered block changes exactly the block's interior pixels, each to
its 3×3 median. -/
lemma filter_block_pix (source : Img) (start_x end_x end_y : ℕ) :
    ∀ (ys : List ℕ) (dest : ℕ → ℕ → Rgba) (X Y : ℕ),
      (ys.foldl (fun dest y =>
        (rangeList start_x end_x).foldl (fun dest x =>
          if block_interior end_x end_y x y then
            pixSet dest x y (median_pixel source x y)
          else dest) dest) dest) X Y =
      if X ∈ rangeList start_x end_x ∧ Y ∈ ys ∧
          block_interior end_x end_y X Y then
        median_pixel source X Y
      else dest X Y := by
  intro ys
  induction ys with
  | nil =>
    intro dest X Y
    simp
  | cons y t ih =>
    intro dest X Y
    rw [List.foldl_cons, ih]
    by_cases hc : X ∈ rangeList start_x end_x ∧ Y ∈ t ∧
        block_interior end_x end_y X Y
    · rw [if_pos hc, if_pos ⟨hc.1, List.mem_cons_of_mem _ hc.2.1, hc.2.2⟩]
    · rw [if_neg hc, filter_row_pix source end_x end_y y]
      by_cases hy : X ∈ rangeList start_x end_x ∧ Y = y ∧
          block_interior end_x end_y X y
      · obtain ⟨hy1, hy2, hy3⟩ := hy
        subst hy2
        rw [if_pos ⟨hy1, rfl, hy3⟩]
        rw [if_pos ⟨hy1, List.mem_cons_self _ _, hy3⟩]
      · rw [if_neg hy]
        have hcond : ¬ (X ∈ rangeList start_x end_x ∧ Y ∈ y :: t ∧
            block_interior end_x end_y X Y) := by
          intro ⟨h1, hm, h3⟩
          rcases List.mem_cons.mp hm with h | h
          · exact hy ⟨h1, h, h ▸ h3⟩
          · exact hc ⟨h1, h, h3⟩
        rw [if_neg hcond]

/-- The per-block filtering condition of `apply_selective_denoising`:
`is_gradient ∧ noise_level > 15`. -/
def block_filtered (img : Img) (blk : ℕ × ℕ) : Prop :=
  let block_end_x := min (blk.1 + 8) img.width
  let block_end_y := min (blk.2 + 8) img.height
  let analysis := analyze_block img blk.1 blk.2 block_end_x block_end_y
  analysis.1 ∧ analysis.2 > 15

instance (img : Img) (blk : ℕ × ℕ) : Decidable (block_filtered img blk) := by
  unfold block_filtered
  infer_instance

/-- The set of pixels a flagged block writes: inside the block's clipped
bounds and passing the interior test. -/
def blockWrite (img : Img) (blk : ℕ × ℕ) (X Y : ℕ) : Prop :=
  X ∈ rangeList blk.1 (min (blk.1 + 8) img.width) ∧
  Y ∈ rangeList blk.2 (min (blk.2 + 8) img.height) ∧
  block_interior (min (blk.1 + 8) img.width) (min (blk.2 + 8) img.height) X Y

instance (img : Img) (blk : ℕ × ℕ) (X Y : ℕ) :
    Decidable (blockWrite img blk X Y) := by
  unfold blockWrite
  infer_instance

/-- The block fold of the denoiser is pointwise: a pixel is the 3×3 median
of the original image exactly when some visited block is flagged and writes
it, and is otherwise untouched. -/
lemma denoise_fold_pix (img : Img) :
    ∀ (bl : List (ℕ × ℕ)) (dest : ℕ → ℕ → Rgba) (X Y : ℕ),
      (bl.foldl (fun dest blk =>
        let block_end_x := min (blk.1 + 8) img.width
        let block_end_y := min (blk.2 + 8) img.height
        let analysis := analyze_block img blk.1 blk.2 block_end_x block_end_y
        if analysis.1 ∧ analysis.2 > 15 then
          apply_median_filter_to_block img dest blk.1 blk.2 block_end_x
            block_end_y
        else dest) dest) X Y =
      if ∃ blk ∈ bl, block_filtered img blk ∧ blockWrite img blk X Y then
        median_pixel img X Y
      else dest X Y := by
  intro bl
  induction bl with
  | nil =>
    intro dest X Y
    simp
  | cons blk t ih =>
    intro dest X Y
    rw [List.foldl_cons, ih]
    by_cases hc : ∃ b ∈ t, block_filtered img b ∧ blockWrite img b X Y
    · rw [if_pos hc]
      obtain ⟨b, hb, hbf⟩ := hc
      rw [if_pos ⟨b, List.mem_cons_of_mem _ hb, hbf⟩]
    · rw [if_neg hc]
      by_cases hf : block_filtered img blk
      · have hstep : (if (analyze_block img blk.1 blk.2
            (min (blk.1 + 8) img.width) (min (blk.2 + 8) img.height)).1 ∧
            (analyze_block img blk.1 blk.2 (min (blk.1 + 8) img.width)
              (min (blk.2 + 8) img.height)).2 > 15 then
            apply_median_filter_to_block img dest blk.1 blk.2
              (min (blk.1 + 8) img.width) (min (blk.2 + 8) img.height)
          else dest) = apply_median_filter_to_block img dest blk.1 blk.2
            (min (blk.1 + 8) img.width) (min (blk.2 + 8) img.height) :=
          if_pos hf
        rw [hstep]
        unfold apply_median_filter_to_block
        rw [filter_block_pix img blk.1 (min (blk.1 + 8) img.width)
          (min (blk.2 + 8) img.height) (rangeList blk.2
            (min (blk.2 + 8) img.height)) dest X Y]
        by_cases hw : blockWrite img blk X Y
        · rw [if_pos ⟨hw.1, hw.2.1, hw.2.2⟩,
            if_pos ⟨blk, List.mem_cons_self _ _, hf, hw⟩]
        · have hw' : ¬ (X ∈ rangeList blk.1 (min (blk.1 + 8) img.width) ∧
              Y ∈ rangeList blk.2 (min (blk.2 + 8) img.height) ∧
              block_interior (min (blk.1 + 8) img.width)
                (min (blk.2 + 8) img.height) X Y) := hw
          rw [if_neg hw']
          have hcond : ¬ ∃ b ∈ blk :: t, block_filtered img b ∧
              blockWrite img b X Y := by
            intro ⟨b, hm, hbf, hbw⟩
            rcases List.mem_cons.mp hm with h | h
            · exact hw (h ▸ hbw)
            · exact hc ⟨b, h, hbf, hbw⟩
          rw [if_neg hcond]
      · have hstep : (if (analyze_block img blk.1 blk.2
            (min (blk.1 + 8) img.width) (min (blk.2 + 8) img.height)).1 ∧
            (analyze_block img blk.1 blk.2 (min (blk.1 + 8) img.width)
              (min (blk.2 + 8) img.height)).2 > 15 then
            apply_median_filter_to_block img dest blk.1 blk.2
              (min (blk.1 + 8) img.width) (min (blk.2 + 8) img.height)
          else dest) = dest := if_neg hf
        rw [hstep]
        have hcond : ¬ ∃ b ∈ blk :: t, block_filtered img b ∧
            blockWrite img b X Y := by
          intro ⟨b, hm, hbf, hbw⟩
          rcases List.mem_cons.mp hm with h | h
          · exact hf (h ▸ hbf)
          · exact hc ⟨b, h, hbf, hbw⟩
        rw [if_neg hcond]

/-- Pointwise description of the whole denoiser. -/
lemma apply_selective_denoising_pix (img : Img) (X Y : ℕ) :
    (apply_selective_denoising img).pix X Y =
      if ∃ blk ∈ blocksOf img, block_filtered img blk ∧
          blockWrite img blk X Y then
        median_pixel img X Y
      else img.pix X Y :=
  denoise_fold_pix img (blocksOf img) img.pix X Y

/- ------------------------------------------------------------------ -/
/- C5: which pixels the denoiser touches.                              -/
/- ------------------------------------------------------------------ -/

/-- **C5 (counterexample).** On a 10×4 image striped with red period 2
horizontally and green period 2 vertically, the block starting at column 8
is flagged (edge density 0, average 4-neighbor difference 20 > 15), and the
denoiser *changes* the pixel at (8,1) — a pixel on the block's *left
border* (column 8 is the block's start column).  The claim that "every
border pixel of the block is left unchanged" is therefore false: the
interior test compares `x > 0`/`y > 0` against the image origin, not the
block origin. -/
theorem c5_border_pixel_counterexample :
    (8 : ℕ) % 8 = 0 ∧
      block_filtered ⟨10, 4, fun x y =>
        ⟨if x % 2 = 1 then 60 else 0, if y % 2 = 1 then 60 else 0, 0, 255⟩⟩
        (8, 0) ∧
      (apply_selective_denoising ⟨10, 4, fun x y =>
        ⟨if x % 2 = 1 then 60 else 0, if y % 2 = 1 then 60 else 0, 0, 255⟩⟩).pix
        8 1 ≠
      (⟨10, 4, fun x y =>
        ⟨if x % 2 = 1 then 60 else 0, if y % 2 = 1 then 60 else 0, 0, 255⟩⟩ :
        Img).pix 8 1 := by
  have hstats : block_stats ⟨10, 4, fun x y =>
      ⟨if x % 2 = 1 then 60 else 0, if y % 2 = 1 then 60 else 0, 0, 255⟩⟩
      8 0 10 4 = (0, 2, 40) := by
    have h1 : rangeList 0 4 = [0, 1, 2, 3] := rfl
    have h2 : rangeList 8 10 = [8, 9] := rfl
    unfold block_stats block_stats_row block_stats_step
    rw [h1, h2]
    norm_num [List.foldl_cons, List.foldl_nil, block_interior, pixel_diff]
  have hflag : block_filtered ⟨10, 4, fun x y =>
      ⟨if x % 2 = 1 then 60 else 0, if y % 2 = 1 then 60 else 0, 0, 255⟩⟩
      (8, 0) := by
    unfold block_filtered analyze_block block_edge_density block_avg_variance
    norm_num [hstats, Nat.min_def]
  refine ⟨rfl, hflag, ?_⟩
  rw [apply_selective_denoising_pix]
  rw [if_pos ⟨(8, 0), by decide, hflag, by decide⟩]
  decide

/-- **C5 (amended).** A block is median-filtered iff its edge density is
below 0.15 and its average 4-neighbor difference exceeds both 5.0 and 15.0
(unchanged from the claim); and within a filtered block exactly the pixels
satisfying `x > 0 ∧ y > 0 ∧ x < end_x - 1 ∧ y < end_y - 1` — in absolute
image coordinates — are replaced by the channel-wise 3×3 median of the
original image (alpha kept).  The block's right and bottom border pixels
are therefore always left unchanged, but its left/top border pixels are
filtered whenever they are not on the image's left/top edge. -/
theorem c5_denoiser_filter_characterization :
    (∀ (img : Img) (start_x start_y end_x end_y : ℕ),
      ((analyze_block img start_x start_y end_x end_y).1 = true ∧
        (analyze_block img start_x start_y end_x end_y).2 > 15) ↔
      (block_edge_density img start_x start_y end_x end_y < 3/20 ∧
        block_avg_variance img start_x start_y end_x end_y > 5 ∧
        block_avg_variance img start_x start_y end_x end_y > 15)) ∧
    (∀ (img : Img) (X Y : ℕ),
      (apply_selective_denoising img).pix X Y =
        if ∃ blk ∈ blocksOf img, block_filtered img blk ∧
            blockWrite img blk X Y then
          median_pixel img X Y
        else img.pix X Y) := by
  constructor
  · intro img start_x start_y end_x end_y
    unfold analyze_block
    simp [and_assoc]
  · exact apply_selective_denoising_pix

/- ------------------------------------------------------------------ -/
/- C9: the denoiser is a no-op (hence idempotent) on flat regions.     -/
/- ------------------------------------------------------------------ -/

/-- Image equality from componentwise equality. -/
lemma Img_ext (i1 i2 : Img) (hw : i1.width = i2.width)
    (hh : i1.height = i2.height) (hp : ∀ x y, i1.pix x y = i2.pix x y) :
    i1 = i2 := by
  cases i1
  cases i2
  simp only [Img.mk.injEq]
  exact ⟨hw, hh, funext fun x => funext fun y => hp x y⟩

/-- On a constant image the difference of any two pixels is 0. -/
lemma pixel_diff_const (c : Rgba) : pixel_diff c c = 0 := by
  norm_num [pixel_diff]

/-- On a constant image one accumulator step adds no edge and no
variance. -/
lemma block_stats_step_const (width height : ℕ) (c : Rgba)
    (end_x end_y y : ℕ) (st : ℕ × ℕ × ℚ) (x : ℕ) :
    (block_stats_step ⟨width, height, fun _ _ => c⟩ end_x end_y y st x).1 =
      st.1 ∧
    (block_stats_step ⟨width, height, fun _ _ => c⟩ end_x end_y y st x).2.2 =
      st.2.2 := by
  unfold block_stats_step
  by_cases hi : block_interior end_x end_y x y
  · rw [if_pos hi]
    constructor
    · simp [pixel_diff_const]
    · simp [pixel_diff_const]
  · rw [if_neg hi]
    exact ⟨rfl, rfl⟩

/-- On a constant image one accumulator row adds no edge and no variance. -/
lemma block_stats_row_const (width height : ℕ) (c : Rgba)
    (start_x end_x end_y : ℕ) :
    ∀ (xs : List ℕ) (st : ℕ × ℕ × ℚ) (y : ℕ),
      (xs.foldl (block_stats_step ⟨width, height, fun _ _ => c⟩ end_x end_y y)
        st).1 = st.1 ∧
      (xs.foldl (block_stats_step ⟨width, height, fun _ _ => c⟩ end_x end_y y)
        st).2.2 = st.2.2 := by
  intro xs
  induction xs with
  | nil => intro st y; exact ⟨rfl, rfl⟩
  | cons x t ih =>
    intro st y
    rw [List.foldl_cons]
    have hs := block_stats_step_const width height c end_x end_y y st x
    exact ⟨((ih _ y).1).trans hs.1, ((ih _ y).2).trans hs.2⟩

/-- On a constant image the block statistics accumulate no edges and no
variance. -/
lemma block_stats_const (width height : ℕ) (c : Rgba)
    (start_x start_y end_x end_y : ℕ) :
    (block_stats ⟨width, height, fun _ _ => c⟩ start_x start_y end_x
      end_y).1 = 0 ∧
    (block_stats ⟨width, height, fun _ _ => c⟩ start_x start_y end_x
      end_y).2.2 = 0 := by
  unfold block_stats
  have houter : ∀ (ys : List ℕ) (st : ℕ × ℕ × ℚ),
      (ys.foldl (block_stats_row ⟨width, height, fun _ _ => c⟩ start_x end_x
        end_y) st).1 = st.1 ∧
      (ys.foldl (block_stats_row ⟨width, height, fun _ _ => c⟩ start_x end_x
        end_y) st).2.2 = st.2.2 := by
    intro ys
    induction ys with
    | nil => intro st; exact ⟨rfl, rfl⟩
    | cons y t ih =>
      intro st
      rw [List.foldl_cons]
      have hr := block_stats_row_const width height c start_x end_x end_y
        (rangeList start_x end_x) st y
      exact ⟨((ih _).1).trans hr.1, ((ih _).2).trans hr.2⟩
  exact houter (rangeList start_y end_y) (0, 0, 0)

/-- No block of a constant image is flagged for filtering: its average
4-neighbor difference is 0, which is not above the 5.0 gradient-noise
threshold (nor the 15.0 action threshold). -/
lemma block_filtered_const_false (width height : ℕ) (c : Rgba)
    (blk : ℕ × ℕ) :
    ¬ block_filtered ⟨width, height, fun _ _ => c⟩ blk := by
  have hav : block_avg_variance ⟨width, height, fun _ _ => c⟩ blk.1 blk.2
      (min (blk.1 + 8) width) (min (blk.2 + 8) height) = 0 := by
    have hs := block_stats_const width height c blk.1 blk.2
      (min (blk.1 + 8) width) (min (blk.2 + 8) height)
    simp only [block_avg_variance]
    rw [hs.2]
    split_ifs <;> simp
  intro h
  simp only [block_filtered, analyze_block, hav] at h
  exact absurd h.2 (by norm_num)

/-- The denoiser leaves a constant image unchanged. -/
lemma apply_selective_denoising_const (width height : ℕ) (c : Rgba) :
    apply_selective_denoising ⟨width, height, fun _ _ => c⟩ =
      ⟨width, height, fun _ _ => c⟩ := by
  refine Img_ext _ _ rfl rfl ?_
  intro x y
  rw [apply_selective_denoising_pix]
  rw [if_neg ?_]
  rintro ⟨blk, _, hbf, _⟩
  exact block_filtered_const_false width height c blk hbf

/-- **C9.** On a flat (constant) region the denoiser is a no-op, so running
it a second time on its own output changes no pixel: denoising twice equals
denoising once. -/
theorem c9_denoiser_idempotent_on_flat (width height : ℕ) (c : Rgba) :
    apply_selective_denoising
        (apply_selective_denoising ⟨width, height, fun _ _ => c⟩) =
      apply_selective_denoising ⟨width, height, fun _ _ => c⟩ := by
  rw [apply_selective_denoising_const, apply_selective_denoising_const]

/- ------------------------------------------------------------------ -/
/- C6: apply_quantization rejects an unresolved Auto mode.             -/
/- ------------------------------------------------------------------ -/

/-- The per-channel darkening curve of `apply_darkening` (src/minify.rs
lines 462-488).  `(v as f32 * 0.8) as u8` equals `⌊0.8·v⌋ = 4v/5` exactly
for `v < 16`, and `(v as f32 * 0.9) as u8` equals `⌊0.9·v⌋ = 9v/10` exactly
for `v < 32`: for these small products the `f32` rounding error (at most a
few times `2⁻²³` relative) never moves the product across an integer
boundary, and where `0.8·v`/`0.9·v` is an integer the nearest `f32` to the
product is that integer itself. -/
def darken_channel (value : ℕ) : ℕ :=
  if value < 16 then 4 * value / 5
  else if value < 32 then 9 * value / 10
  else value

/-- `apply_darkening`: darken the RGB channels of every pixel, skip
alpha. -/
def apply_darkening (rgba : Img) : Img :=
  ⟨rgba.width, rgba.height, fun x y =>
    let p := rgba.pix x y
    ⟨darken_channel p.r, darken_channel p.g, darken_channel p.b, p.a⟩⟩

/-- `apply_quantization` (src/minify.rs lines 382-458): darken, optionally
blur, derive the downsampling factor from the quality, then dispatch on the
dithering mode.  The Gaussian blur is library code from the `image` crate,
so it is taken as a parameter; the final PNG encoding is likewise outside
the core and the pixel buffer is returned directly.

The snapshot's `DitheringMode` match lacks a `MedianCut` arm (the enum in
src/minify.rs has no such variant even though src/dithering.rs constructs
one).  Modelled from the spec: the `MedianCut` arm dispatches to the
Median-Cut Palette Builder; the spec bounds palettes by the 8-bit PNG class,
so 256 is used as the requested size.  No verified claim depends on this
arm. -/
def apply_quantization (blur : Img → Img) (img : Img) (quality : ℕ)
    (dithering_mode : DitheringMode) (smooth_radius : ℚ) (denoise : Bool) :
    Except String Img :=
  let rgba := apply_darkening img
  let rgba := if smooth_radius > 0 then blur rgba else rgba
  let downsampling_factor : ℕ :=
    if quality ≤ 40 then 32
    else if quality ≤ 55 then 16
    else if quality ≤ 70 then 12
    else 8
  match dithering_mode with
  | DitheringMode.None =>
    let quantized_img := apply_no_dithering rgba downsampling_factor
    Except.ok (if denoise then apply_selective_denoising quantized_img
      else quantized_img)
  | DitheringMode.FloydSteinberg =>
    let quantized_img := apply_floyd_steinberg_dithering rgba
      downsampling_factor
    Except.ok (if denoise then apply_selective_denoising quantized_img
      else quantized_img)
  | DitheringMode.Ordered =>
    let quantized_img := apply_ordered_dithering rgba downsampling_factor
    Except.ok (if denoise then apply_selective_denoising quantized_img
      else quantized_img)
  | DitheringMode.Auto =>
    Except.error ("Auto dithering mode should be resolved before quantization")
  | DitheringMode.MedianCut =>
    let quantized_img := quantize_image_with_median rgba 256
    Except.ok (if denoise then apply_selective_denoising quantized_img
      else quantized_img)

/-- **C6.** If the mode reaching the pixel-transform stage is still `Auto`,
`apply_quantization` returns an error — for every image, quality, blur
radius and denoise flag — and never silently defaults to a concrete mode
(no `Except.ok` buffer is produced). -/
theorem c6_auto_mode_is_an_error (blur : Img → Img) (img : Img)
    (quality : ℕ) (smooth_radius : ℚ) (denoise : Bool) :
    apply_quantization blur img quality DitheringMode.Auto smooth_radius
        denoise =
      Except.error
        ("Auto dithering mode should be resolved before quantization") := by
  rfl
